import Mathlib

/-!
Shallow embedding of the sabaton corelib early-boot code: the A/B
bootloader-message codec, the boot-control service, the fstab parser and
the uevent machinery, together with proofs about them.

Machine integers are modelled as `Nat` with explicit reductions modulo
powers of two where the code truncates; byte buffers are `List Nat`
with every element intended to be below 256; fallible code returns
`Except`.
-/

set_option maxRecDepth 100000

namespace Corelib

/-! ## CRC-32/ISO-HDLC

The Rust code computes checksums with the external crate call
Crc::new(CRC_32_ISO_HDLC).checksum(data).  That algorithm is the
standard reflected CRC-32: reversed polynomial 0xEDB88320, initial
state 0xFFFFFFFF, input and output reflected, final xor 0xFFFFFFFF.
We model it bit by bit over `Nat`; the check value theorem below pins
the definition to the published check value of the algorithm. -/

def CRC32_POLY : Nat := 0xEDB88320

/-- One bit step of the reflected CRC-32: shift the state right and,
when the dropped bit was set, fold in the reversed polynomial. -/
def crcBit (s : Nat) : Nat :=
  if s.testBit 0 then (s >>> 1) ^^^ CRC32_POLY else s >>> 1

/-- One byte step: xor the byte into the low bits of the state and run
eight bit steps. -/
def crcByte (s b : Nat) : Nat := crcBit^[8] (s ^^^ b)

/-- Run the CRC state over a list of bytes. -/
def crcUpdate (s : Nat) (data : List Nat) : Nat := data.foldl crcByte s

/-- CRC-32/ISO-HDLC of a byte list: initial state 0xFFFFFFFF, final
complement. -/
def crc32 (data : List Nat) : Nat := crcUpdate 0xFFFFFFFF data ^^^ 0xFFFFFFFF

/-- The published check value of CRC-32/ISO-HDLC: the checksum of the
ASCII bytes of the string 123456789 is 0xCBF43926. -/
theorem crc32_check_value :
    crc32 [0x31, 0x32, 0x33, 0x34, 0x35, 0x36, 0x37, 0x38, 0x39] = 0xCBF43926 := by
  decide

/-! ### GF(2) linearity of the CRC computation -/

theorem xor_left_comm (a b c : Nat) : a ^^^ (b ^^^ c) = b ^^^ (a ^^^ c) := by
  rw [← Nat.xor_assoc, Nat.xor_comm a b, Nat.xor_assoc]

theorem xor_cancel_left (a b : Nat) : a ^^^ (a ^^^ b) = b := by
  rw [← Nat.xor_assoc, Nat.xor_self, Nat.zero_xor]

theorem shiftRight_one_xor (x y : Nat) :
    (x ^^^ y) >>> 1 = (x >>> 1) ^^^ (y >>> 1) := by
  apply Nat.eq_of_testBit_eq
  intro i
  simp [Nat.testBit_shiftRight, Nat.testBit_xor]

theorem crcBit_linear (x y : Nat) : crcBit (x ^^^ y) = crcBit x ^^^ crcBit y := by
  unfold crcBit
  rw [Nat.testBit_xor]
  cases hx : x.testBit 0 <;> cases hy : y.testBit 0 <;>
    simp [shiftRight_one_xor, Nat.xor_assoc, Nat.xor_comm, xor_left_comm,
      xor_cancel_left, Nat.xor_self, Nat.xor_zero, Nat.zero_xor]

theorem crcBit_iterate_linear (n x y : Nat) :
    crcBit^[n] (x ^^^ y) = crcBit^[n] x ^^^ crcBit^[n] y := by
  induction n generalizing x y with
  | zero => rfl
  | succ n ih =>
      rw [Function.iterate_succ_apply, Function.iterate_succ_apply,
        Function.iterate_succ_apply, crcBit_linear, ih]

theorem crcByte_linear (s t b c : Nat) :
    crcByte (s ^^^ t) (b ^^^ c) = crcByte s b ^^^ crcByte t c := by
  unfold crcByte
  rw [show (s ^^^ t) ^^^ (b ^^^ c) = (s ^^^ b) ^^^ (t ^^^ c) by
        simp [Nat.xor_assoc, Nat.xor_comm, xor_left_comm],
    crcBit_iterate_linear]

theorem crcUpdate_linear :
    ∀ (xs ys : List Nat) (s t : Nat), xs.length = ys.length →
      crcUpdate (s ^^^ t) (List.zipWith (· ^^^ ·) xs ys) =
        crcUpdate s xs ^^^ crcUpdate t ys := by
  intro xs
  induction xs with
  | nil =>
      intro ys s t h
      have : ys = [] := List.eq_nil_of_length_eq_zero h.symm
      simp [this, crcUpdate]
  | cons a as ih =>
      intro ys s t h
      cases ys with
      | nil => simp at h
      | cons b bs =>
          have hlen : as.length = bs.length := by simpa using h
          simp only [List.zipWith_cons_cons, crcUpdate, List.foldl_cons]
          rw [crcByte_linear]
          exact ih bs (crcByte s a) (crcByte t b) hlen

theorem crc32_zip_xor (xs ys : List Nat) (h : xs.length = ys.length) :
    crc32 (List.zipWith (· ^^^ ·) xs ys) = crc32 xs ^^^ crcUpdate 0 ys := by
  unfold crc32
  have h0 : (0xFFFFFFFF : Nat) = 0xFFFFFFFF ^^^ 0 := by decide
  rw [h0, crcUpdate_linear xs ys _ _ h]
  simp [Nat.xor_assoc, Nat.xor_comm, xor_left_comm]

theorem crc32_zip_xor_ne (xs ys : List Nat) (h : xs.length = ys.length)
    (hD : crcUpdate 0 ys ≠ 0) :
    crc32 (List.zipWith (· ^^^ ·) xs ys) ≠ crc32 xs := by
  intro heq
  apply hD
  rw [crc32_zip_xor xs ys h] at heq
  have h2 := congrArg (fun z => crc32 xs ^^^ z) heq
  simp only [xor_cancel_left, Nat.xor_self] at h2
  exact h2

/-! ### A nonzero error pattern has a nonzero raw CRC

The step function never maps a nonzero 32-bit state to zero, so the raw
CRC of a single-bit error pattern is nonzero. -/

theorem crcBit_lt (s : Nat) (h : s < 2 ^ 32) : crcBit s < 2 ^ 32 := by
  unfold crcBit
  split
  · exact Nat.xor_lt_two_pow
      (by rw [Nat.shiftRight_one]; exact lt_of_le_of_lt (Nat.div_le_self s 2) h)
      (by norm_num [CRC32_POLY])
  · rw [Nat.shiftRight_one]
    exact lt_of_le_of_lt (Nat.div_le_self s 2) h

theorem crcBit_eq_zero (s : Nat) (h : s < 2 ^ 32) (h0 : crcBit s = 0) : s = 0 := by
  unfold crcBit at h0
  split at h0
  · have hdiv : s >>> 1 = CRC32_POLY := Nat.xor_eq_zero.mp h0
    rw [Nat.shiftRight_one] at hdiv
    have hpoly : CRC32_POLY = 3988292384 := by decide
    rw [hpoly] at hdiv
    have h32 : (2 : Nat) ^ 32 = 4294967296 := by norm_num
    rw [h32] at h
    omega
  · rename_i hb
    rw [Nat.shiftRight_one] at h0
    have hb2 : ¬ s % 2 = 1 := by simpa [Nat.testBit_zero] using hb
    omega

theorem crcBit_iterate_ne_zero (n s : Nat) (hlt : s < 2 ^ 32) (hne : s ≠ 0) :
    crcBit^[n] s ≠ 0 ∧ crcBit^[n] s < 2 ^ 32 := by
  induction n with
  | zero => exact ⟨hne, hlt⟩
  | succ n ih =>
      rw [Function.iterate_succ_apply']
      exact ⟨fun h => ih.1 (crcBit_eq_zero _ ih.2 h), crcBit_lt _ ih.2⟩

theorem crcUpdate_replicate_zero_ne (k s : Nat) (hlt : s < 2 ^ 32) (hne : s ≠ 0) :
    crcUpdate s (List.replicate k 0) ≠ 0 ∧ crcUpdate s (List.replicate k 0) < 2 ^ 32 := by
  induction k generalizing s with
  | zero => exact ⟨hne, hlt⟩
  | succ k ih =>
      rw [List.replicate_succ]
      simp only [crcUpdate, List.foldl_cons]
      have hstep : crcByte s 0 = crcBit^[8] s := by simp [crcByte]
      have h8 := crcBit_iterate_ne_zero 8 s hlt hne
      have := ih (crcByte s 0) (by rw [hstep]; exact h8.2) (by rw [hstep]; exact h8.1)
      exact ⟨this.1, this.2⟩

theorem crcUpdate_replicate_zero_zero (k : Nat) :
    crcUpdate 0 (List.replicate k 0) = 0 := by
  induction k with
  | zero => rfl
  | succ k ih =>
      rw [List.replicate_succ]
      simp only [crcUpdate, List.foldl_cons]
      have : crcByte 0 0 = 0 := by decide
      rw [this]
      exact ih

/-- The single-bit error patterns: a list of n bytes, all zero except
byte i, which carries the value p. -/
def ePat : Nat → Nat → Nat → List Nat
  | 0, _, _ => []
  | n + 1, 0, p => p :: List.replicate n 0
  | n + 1, i + 1, p => 0 :: ePat n i p

theorem ePat_length : ∀ (n i p : Nat), (ePat n i p).length = n
  | 0, _, _ => rfl
  | _ + 1, 0, _ => by simp [ePat]
  | n + 1, i + 1, p => by simp [ePat, ePat_length n i p]

theorem ePat_decomp : ∀ (n i p : Nat), i < n →
    ePat n i p = List.replicate i 0 ++ p :: List.replicate (n - 1 - i) 0
  | 0, i, p, h => absurd h (Nat.not_lt_zero i)
  | n + 1, 0, p, _ => by simp [ePat]
  | n + 1, i + 1, p, h => by
      have hi : i < n := Nat.lt_of_succ_lt_succ h
      have harith : n - 1 - i = n - (i + 1) := by omega
      simp [ePat, ePat_decomp n i p hi, List.replicate_succ, harith]

theorem pByte_ne : ∀ j, j < 8 → crcByte 0 (1 <<< j) ≠ 0 ∧ crcByte 0 (1 <<< j) < 2 ^ 32 := by
  decide

theorem crcD_ne_zero (i j : Nat) (hi : i < 28) (hj : j < 8) :
    crcUpdate 0 (ePat 28 i (1 <<< j)) ≠ 0 := by
  rw [ePat_decomp 28 i _ hi]
  unfold crcUpdate
  rw [List.foldl_append]
  have h0 : List.foldl crcByte 0 (List.replicate i 0) = 0 :=
    crcUpdate_replicate_zero_zero i
  rw [h0, List.foldl_cons]
  have hp := pByte_ne j hj
  exact (crcUpdate_replicate_zero_ne (28 - 1 - i) _ hp.2 hp.1).1

theorem crc32_flip_ne (xs : List Nat) (i j : Nat) (h28 : xs.length = 28)
    (hi : i < 28) (hj : j < 8) :
    crc32 (List.zipWith (· ^^^ ·) xs (ePat 28 i (1 <<< j))) ≠ crc32 xs :=
  crc32_zip_xor_ne xs _ (by rw [h28, ePat_length]) (crcD_ne_zero i j hi hj)

/-! ### Flipping one bit of one byte, as a zipWith against an error pattern -/

theorem zipWith_xor_replicate_zero :
    ∀ (l : List Nat), List.zipWith (· ^^^ ·) l (List.replicate l.length 0) = l
  | [] => rfl
  | a :: t => by
      simp [List.replicate_succ, zipWith_xor_replicate_zero t]

theorem set_eq_zipWith_ePat :
    ∀ (l : List Nat) (i p : Nat), i < l.length →
      l.set i ((l.getD i 0) ^^^ p) = List.zipWith (· ^^^ ·) l (ePat l.length i p)
  | [], i, p, h => absurd h (by simp)
  | a :: t, 0, p, _ => by
      simp [ePat, zipWith_xor_replicate_zero t, Nat.xor_comm]
  | a :: t, i + 1, p, h => by
      have hi : i < t.length := by simpa using h
      have ih := set_eq_zipWith_ePat t i p hi
      simp only [List.getD_eq_getElem?_getD] at ih
      simp [ePat, ih]

/-! ## Bootloader message codec

Embedding of src/bootloader/message.rs.  A BootloaderMessageAB is a
4096-byte buffer: a 2048-byte legacy message, the 32-byte slot_suffix
region holding the BootloaderControl record and its CRC, a 128-byte
update channel and 1888 reserved bytes.  The BootloaderControl is a
view of the first 28 bytes of the slot_suffix region; we keep it as the
raw byte list and read its fields through accessor functions, exactly
as the packed Rust struct aliases the buffer. -/

inductive BootloaderMessageError where
  | PriorityOutOfRange
  | CrcFailure
  | InsufficientBytes
  | DataTooLong
deriving DecidableEq, Repr

inductive IoErrorKind where
  | InvalidData
  | InvalidInput
deriving DecidableEq, Repr

structure BootloaderMessageAB where
  message : List Nat
  slot_suffix : List Nat
  update_channel : List Nat
  reserved : List Nat
deriving DecidableEq, Repr

/-- The CRC stored in bytes 28..32 of the slot_suffix region, read as a
little-endian u32, as u32::from_ne_bytes does on the little-endian
targets this code runs on. -/
def storedCrc (r : List Nat) : Nat :=
  r.getD 28 0 + 256 * r.getD 29 0 + 65536 * r.getD 30 0 + 16777216 * r.getD 31 0

/-- The little-endian byte decomposition of a u32 value, as
u32::to_ne_bytes produces on a little-endian target. -/
def leBytes (c : Nat) : List Nat :=
  [c % 256, c / 256 % 256, c / 65536 % 256, c / 16777216 % 256]

/-- BootloaderMessageAB::get_bootloader_control: recompute the CRC over
slot_suffix bytes 0..28 and compare with the stored CRC; on success the
Rust code returns a shared reference aliasing those 28 bytes, which we
model as the byte list itself. -/
def get_bootloader_control (m : BootloaderMessageAB) :
    Except BootloaderMessageError (List Nat) :=
  if storedCrc m.slot_suffix ≠ crc32 (m.slot_suffix.take 28) then
    .error .CrcFailure
  else
    .ok (m.slot_suffix.take 28)

/-- BootloaderMessageAB::get_bootloader_control_mut: the same check as
get_bootloader_control, returning a mutable view. -/
def get_bootloader_control_mut (m : BootloaderMessageAB) :
    Except BootloaderMessageError (List Nat) :=
  if storedCrc m.slot_suffix ≠ crc32 (m.slot_suffix.take 28) then
    .error .CrcFailure
  else
    .ok (m.slot_suffix.take 28)

/-- BootloaderMessageAB::set_checksum: recompute the CRC over bytes
0..28 of the slot_suffix region and store it little-endian in bytes
28..32. -/
def set_checksum (m : BootloaderMessageAB) : BootloaderMessageAB :=
  { m with
    slot_suffix := m.slot_suffix.take 28 ++ leBytes (crc32 (m.slot_suffix.take 28)) }

/-- BootloaderMessageAB::as_slice: set the checksum, then view the whole
structure as its 4096 bytes. -/
def as_slice (m : BootloaderMessageAB) : List Nat :=
  let m2 := set_checksum m
  m2.message ++ m2.slot_suffix ++ m2.update_channel ++ m2.reserved

/-- TryFrom for BootloaderMessageAB: fewer than 4096 bytes is
InsufficientBytes, otherwise the buffer is reinterpreted as the
structure; the CRC is not validated here. -/
def message_ab_from_bytes (data : List Nat) :
    Except BootloaderMessageError BootloaderMessageAB :=
  if data.length < 4096 then .error .InsufficientBytes
  else
    .ok ⟨data.take 2048, (data.drop 2048).take 32,
      (data.drop 2080).take 128, (data.drop 2208).take 1888⟩

/-- Flip bit j of byte i of a byte region. -/
def flipBit (r : List Nat) (i j : Nat) : List Nat :=
  r.set i ((r.getD i 0) ^^^ (1 <<< j))

/-! ### BootloaderControl field accessors

Offsets inside the 28-byte control body: slot_suffix bytes 0..4, magic
bytes 4..8, version byte 8, the nb_slot and recovery_tries_remaining
bitfield in byte 9, two reserved bytes, four 2-byte SlotMetadata
records at bytes 12..20, eight reserved bytes.  Bit ranges follow the
c2rust bitfield declarations; for a byte b, bits 0..=3 are b % 16,
bits 4..=6 are b / 16 % 8, bit 7 is b / 128 % 2. -/

def ctrl_nb_slot (body : List Nat) : Nat := body.getD 9 0 % 16

def ctrl_recovery_tries_remaining (body : List Nat) : Nat := body.getD 9 0 / 16 % 8

def slot_priority (body : List Nat) (i : Nat) : Nat := body.getD (12 + 2 * i) 0 % 16

def slot_tries_remaining (body : List Nat) (i : Nat) : Nat :=
  body.getD (12 + 2 * i) 0 / 16 % 8

def slot_successful_boot (body : List Nat) (i : Nat) : Nat :=
  body.getD (12 + 2 * i) 0 / 128 % 2

def slot_verity_corrupted (body : List Nat) (i : Nat) : Nat :=
  body.getD (13 + 2 * i) 0 % 2

/-- BootloaderControl::slot_suffix: find the first NUL in the 4-byte
field and return the bytes before it (the CStr content); with no NUL
the call fails with DataTooLong. -/
def ctrl_slot_suffix (body : List Nat) : Except BootloaderMessageError (List Nat) :=
  match (body.take 4).findIdx? (· == 0) with
  | some p => .ok ((body.take 4).take p)
  | none => .error .DataTooLong

/-- BootloaderControl::set_slot_suffix: reject suffixes longer than 3
bytes with DataTooLong, otherwise write the suffix bytes followed by
NUL padding into the 4-byte field, returning the updated 28-byte
control body. -/
def ctrl_set_slot_suffix (body suffix : List Nat) :
    Except BootloaderMessageError (List Nat) :=
  if 3 < suffix.length then .error .DataTooLong
  else .ok ((suffix ++ List.replicate (4 - suffix.length) 0) ++ body.drop 4)

/-- The state of the control body after a set_slot_suffix call: the Rust
method only assigns the field when it returns Ok, so a DataTooLong error
leaves the body unchanged. -/
def apply_set_slot_suffix (body suffix : List Nat) : List Nat :=
  match ctrl_set_slot_suffix body suffix with
  | .ok body2 => body2
  | .error _ => body

/-! ## Boot control service

Embedding of src/bootloader/bootcontrol.rs.  BootControlImpl wraps a
BootloaderMessageAB read from the MISC partition; every mutating call
persists by rewriting the 4096-byte buffer, which recomputes the CRC
through as_slice.  Persistence I/O is modelled as always succeeding and
returning the state whose serialization was written. -/

/-- BootloaderMessageAB::save_to_misc_partition: writes as_slice(self)
to the MISC partition; the in-memory structure afterwards carries the
recomputed checksum. -/
def save_to_misc_partition (st : BootloaderMessageAB) : BootloaderMessageAB :=
  set_checksum st

/-- BootControl::number_of_slots: nb_slot of the control record; a CRC
failure surfaces as an InvalidData I/O error. -/
def number_of_slots (st : BootloaderMessageAB) : Except IoErrorKind Nat :=
  match get_bootloader_control st with
  | .error _ => .error .InvalidData
  | .ok body => .ok (ctrl_nb_slot body)

/-- BootControl::is_bootable: for a slot index below nb_slot, report
whether tries_remaining is positive; otherwise fail with InvalidInput. -/
def is_bootable (st : BootloaderMessageAB) (slot_index : Nat) :
    Except IoErrorKind Bool :=
  match get_bootloader_control st with
  | .error _ => .error .InvalidData
  | .ok body =>
      if slot_index < ctrl_nb_slot body then
        .ok (decide (0 < slot_tries_remaining body slot_index))
      else
        .error .InvalidInput

/-- BootControl::is_slot_successful: same shape as is_bootable over the
successful_boot bit. -/
def is_slot_successful (st : BootloaderMessageAB) (slot_index : Nat) :
    Except IoErrorKind Bool :=
  match get_bootloader_control st with
  | .error _ => .error .InvalidData
  | .ok body =>
      if slot_index < ctrl_nb_slot body then
        .ok (decide (slot_successful_boot body slot_index = 1))
      else
        .error .InvalidInput

/-- BootControl::set_active_slot: after the CRC gate, indices below
nb_slot are mapped to the canonical suffix (0 to a, 1 to b, anything
else is InvalidData), the suffix is written into the control record and
the buffer is persisted; indices at or above nb_slot are InvalidInput. -/
def set_active_slot (st : BootloaderMessageAB) (slot_index : Nat) :
    Except IoErrorKind BootloaderMessageAB :=
  match get_bootloader_control_mut st with
  | .error _ => .error .InvalidData
  | .ok body =>
      if slot_index < ctrl_nb_slot body then
        match (match slot_index with
               | 0 => some [97]
               | 1 => some [98]
               | _ => none) with
        | none => .error .InvalidData
        | some sfx =>
            match ctrl_set_slot_suffix body sfx with
            | .error _ => .error .InvalidData
            | .ok body2 =>
                .ok (save_to_misc_partition
                  { st with slot_suffix := body2 ++ st.slot_suffix.drop 28 })
      else .error .InvalidInput

/-! ## Concrete scenario record

The record of the repository test fixture and of the spec's first
end-to-end scenario: active suffix a, magic 0x42414342 stored
little-endian, version 1, nb_slot 2, slot 0 at priority 15 with 6 tries
remaining, slot 1 at priority 15 with 7 tries remaining, slots 2 and 3
zero, and a matching CRC. -/

def scenario1Body : List Nat :=
  [97, 0, 0, 0, 66, 67, 65, 66, 1, 2, 0, 0, 111, 0, 127, 0, 0, 0, 0, 0,
   0, 0, 0, 0, 0, 0, 0, 0]

def scenario1Crc : Nat := 2165154705

def scenario1Region : List Nat := scenario1Body ++ leBytes scenario1Crc

def scenario1State : BootloaderMessageAB :=
  ⟨List.replicate 2048 0, scenario1Region, List.replicate 128 0,
    List.replicate 1888 0⟩

theorem crcUpdate_chunk (s : Nat) (l1 l2 : List Nat) :
    crcUpdate s (l1 ++ l2) = crcUpdate (crcUpdate s l1) l2 :=
  List.foldl_append ..

/-- The CRC of the scenario body, evaluated in four chunks to keep each
kernel reduction shallow. -/
theorem scenario1Body_crc : crc32 scenario1Body = scenario1Crc := by
  have e : scenario1Body =
      [97, 0, 0, 0, 66, 67, 65, 66, 1] ++
        ([2, 0, 0, 111, 0, 127, 0, 0, 0] ++
          ([0, 0, 0, 0, 0, 0, 0, 0, 0] ++ [0])) := rfl
  rw [crc32, e, crcUpdate_chunk, crcUpdate_chunk, crcUpdate_chunk]
  have h1 : crcUpdate 0xFFFFFFFF [97, 0, 0, 0, 66, 67, 65, 66, 1] = 1030518954 := by
    decide
  have h2 : crcUpdate 1030518954 [2, 0, 0, 111, 0, 127, 0, 0, 0] = 516265334 := by
    decide
  have h3 : crcUpdate 516265334 [0, 0, 0, 0, 0, 0, 0, 0, 0] = 1126224653 := by
    decide
  have h4 : crcUpdate 1126224653 [0] = 2129812590 := by decide
  rw [h1, h2, h3, h4]
  decide

theorem scenario1Region_take : scenario1Region.take 28 = scenario1Body := by decide

theorem scenario1Region_storedCrc : storedCrc scenario1Region = scenario1Crc := by
  decide

theorem scenario1Region_crc_ok :
    storedCrc scenario1Region = crc32 (scenario1Region.take 28) := by
  rw [scenario1Region_storedCrc, scenario1Region_take, scenario1Body_crc]

theorem scenario1State_control :
    get_bootloader_control scenario1State = .ok scenario1Body := by
  unfold get_bootloader_control
  have hss : scenario1State.slot_suffix = scenario1Region := rfl
  rw [hss, scenario1Region_take, scenario1Body_crc, scenario1Region_storedCrc]
  simp

/-! ## List access helpers -/

theorem getD_set_ne (l : List Nat) (i k v : Nat) (h : i ≠ k) :
    (l.set i v).getD k 0 = l.getD k 0 := by
  simp [List.getD_eq_getElem?_getD, List.getElem?_set_ne h]

theorem getD_take (l : List Nat) (n i : Nat) (h : i < n) :
    (l.take n).getD i 0 = l.getD i 0 := by
  simp [List.getD_eq_getElem?_getD, List.getElem?_take, h]

theorem flipBit_take_28 (l : List Nat) (i j : Nat) (hi : i < 28) :
    (flipBit l i j).take 28 =
      (l.take 28).set i ((l.take 28).getD i 0 ^^^ (1 <<< j)) := by
  unfold flipBit
  rw [List.set_take, getD_take l 28 i hi]

theorem flipBit_storedCrc (l : List Nat) (i j : Nat) (hi : i < 28) :
    storedCrc (flipBit l i j) = storedCrc l := by
  unfold flipBit storedCrc
  rw [getD_set_ne _ _ _ _ (by omega), getD_set_ne _ _ _ _ (by omega),
    getD_set_ne _ _ _ _ (by omega), getD_set_ne _ _ _ _ (by omega)]

/-- Flipping a single bit inside the first 28 bytes changes their CRC. -/
theorem flipBit_crc_ne (l : List Nat) (i j : Nat) (h32 : l.length = 32)
    (hi : i < 28) (hj : j < 8) :
    crc32 ((flipBit l i j).take 28) ≠ crc32 (l.take 28) := by
  have hblen : (l.take 28).length = 28 := by
    simp [List.length_take, h32]
  rw [flipBit_take_28 l i j hi,
    set_eq_zipWith_ePat (l.take 28) i (1 <<< j) (by rw [hblen]; exact hi), hblen]
  exact crc32_flip_ne (l.take 28) i j hblen hi hj

/-- Claim C1: when the stored CRC field of the slot_suffix region
matches the CRC-32/ISO-HDLC of its first 28 bytes, get_bootloader_control
and get_bootloader_control_mut both succeed, and flipping any single bit
of bytes 0..28 makes both return CrcFailure. -/
theorem claim_C1 (m : BootloaderMessageAB) (i j : Nat)
    (h32 : m.slot_suffix.length = 32)
    (hcrc : storedCrc m.slot_suffix = crc32 (m.slot_suffix.take 28))
    (hi : i < 28) (hj : j < 8) :
    (get_bootloader_control m).isOk = true ∧
    (get_bootloader_control_mut m).isOk = true ∧
    get_bootloader_control { m with slot_suffix := flipBit m.slot_suffix i j } =
      .error .CrcFailure ∧
    get_bootloader_control_mut { m with slot_suffix := flipBit m.slot_suffix i j } =
      .error .CrcFailure := by
  have hne : crc32 ((flipBit m.slot_suffix i j).take 28) ≠
      crc32 (m.slot_suffix.take 28) :=
    flipBit_crc_ne m.slot_suffix i j h32 hi hj
  have hflip : storedCrc (flipBit m.slot_suffix i j) ≠
      crc32 ((flipBit m.slot_suffix i j).take 28) := by
    rw [flipBit_storedCrc m.slot_suffix i j hi, hcrc]
    exact fun h => hne (h.symm)
  refine ⟨?_, ?_, ?_, ?_⟩
  · simp [get_bootloader_control, hcrc, Except.isOk, Except.toBool]
  · simp [get_bootloader_control_mut, hcrc, Except.isOk, Except.toBool]
  · simp [get_bootloader_control, hflip]
  · simp [get_bootloader_control_mut, hflip]

/-- Witness for claim C1 at the scenario record, flipping bit 0 of
byte 0. -/
theorem claim_C1_witness :
    (get_bootloader_control scenario1State).isOk = true ∧
    (get_bootloader_control_mut scenario1State).isOk = true ∧
    get_bootloader_control
      { scenario1State with slot_suffix := flipBit scenario1State.slot_suffix 0 0 } =
        .error .CrcFailure ∧
    get_bootloader_control_mut
      { scenario1State with slot_suffix := flipBit scenario1State.slot_suffix 0 0 } =
        .error .CrcFailure :=
  claim_C1 scenario1State 0 0 (by decide)
    (by
      have hss : scenario1State.slot_suffix = scenario1Region := rfl
      rw [hss]
      exact scenario1Region_crc_ok)
    (by decide) (by decide)

/-! ## Serialization invariant -/

theorem crcBit_iterate_lt (n s : Nat) (h : s < 2 ^ 32) : crcBit^[n] s < 2 ^ 32 := by
  induction n with
  | zero => exact h
  | succ n ih => rw [Function.iterate_succ_apply']; exact crcBit_lt _ ih

theorem crcByte_lt (s b : Nat) (hs : s < 2 ^ 32) (hb : b < 256) :
    crcByte s b < 2 ^ 32 := by
  unfold crcByte
  exact crcBit_iterate_lt 8 _ (Nat.xor_lt_two_pow hs (lt_trans hb (by norm_num)))

theorem crcUpdate_lt :
    ∀ (data : List Nat) (s : Nat), s < 2 ^ 32 → (∀ b ∈ data, b < 256) →
      crcUpdate s data < 2 ^ 32
  | [], s, hs, _ => hs
  | b :: rest, s, hs, hb => by
      simp only [crcUpdate, List.foldl_cons]
      exact crcUpdate_lt rest (crcByte s b)
        (crcByte_lt s b hs (hb b (by simp)))
        (fun x hx => hb x (by simp [hx]))

theorem crc32_lt (data : List Nat) (hb : ∀ b ∈ data, b < 256) :
    crc32 data < 2 ^ 32 := by
  unfold crc32
  exact Nat.xor_lt_two_pow (crcUpdate_lt data _ (by norm_num) hb) (by norm_num)

/-- Appending the little-endian bytes of a 32-bit value after a 28-byte
body stores exactly that value at the CRC offsets. -/
theorem storedCrc_leBytes (xs : List Nat) (c : Nat) (h28 : xs.length = 28)
    (hc : c < 2 ^ 32) :
    storedCrc (xs ++ leBytes c) = c := by
  unfold storedCrc leBytes
  rw [List.getD_append_right _ _ _ _ (by omega), List.getD_append_right _ _ _ _ (by omega),
    List.getD_append_right _ _ _ _ (by omega), List.getD_append_right _ _ _ _ (by omega),
    h28]
  norm_num [List.getD]
  have h32 : (2 : Nat) ^ 32 = 4294967296 := by norm_num
  rw [h32] at hc
  omega

/-- Claim C2: after as_slice, the serialization is 4096 bytes, the four
CRC bytes of the embedded slot_suffix region are the little-endian
CRC-32/ISO-HDLC of its first 28 bytes, re-reading the bytes recovers the
checksummed structure, and get_bootloader_control on it succeeds - no
matter how the control fields were mutated beforehand. -/
theorem claim_C2 (m : BootloaderMessageAB)
    (h1 : m.message.length = 2048) (h2 : m.slot_suffix.length = 32)
    (h3 : m.update_channel.length = 128) (h4 : m.reserved.length = 1888)
    (hb : ∀ b ∈ m.slot_suffix, b < 256) :
    (as_slice m).length = 4096 ∧
    (((as_slice m).drop 2048).take 32).drop 28 =
      leBytes (crc32 ((((as_slice m).drop 2048).take 32).take 28)) ∧
    message_ab_from_bytes (as_slice m) = .ok (set_checksum m) ∧
    (get_bootloader_control (set_checksum m)).isOk = true := by
  have hbody : (m.slot_suffix.take 28).length = 28 := by
    simp [List.length_take, h2]
  have hclt : crc32 (m.slot_suffix.take 28) < 2 ^ 32 :=
    crc32_lt _ (fun b hbmem => hb b (List.take_subset 28 m.slot_suffix hbmem))
  have hss2 : (set_checksum m).slot_suffix =
      m.slot_suffix.take 28 ++ leBytes (crc32 (m.slot_suffix.take 28)) := rfl
  have hss2len : ((set_checksum m).slot_suffix).length = 32 := by
    rw [hss2, List.length_append, hbody]
    simp [leBytes]
  have hs : as_slice m =
      m.message ++ ((set_checksum m).slot_suffix ++
        (m.update_channel ++ m.reserved)) := by
    simp [as_slice, set_checksum, List.append_assoc]
  have hdrop : (as_slice m).drop 2048 =
      (set_checksum m).slot_suffix ++ (m.update_channel ++ m.reserved) := by
    rw [hs, List.drop_left' h1]
  have hregion : ((as_slice m).drop 2048).take 32 = (set_checksum m).slot_suffix := by
    rw [hdrop, List.take_left' hss2len]
  have hr_take : ((set_checksum m).slot_suffix).take 28 = m.slot_suffix.take 28 := by
    rw [hss2, List.take_left' hbody]
  have hr_drop : ((set_checksum m).slot_suffix).drop 28 =
      leBytes (crc32 (m.slot_suffix.take 28)) := by
    rw [hss2, List.drop_left' hbody]
  have hstored : storedCrc ((set_checksum m).slot_suffix) =
      crc32 (m.slot_suffix.take 28) := by
    rw [hss2]
    exact storedCrc_leBytes _ _ hbody hclt
  refine ⟨?_, ?_, ?_, ?_⟩
  · rw [hs]
    simp [List.length_append, h1, h3, h4, hss2len]
  · rw [hregion, hr_drop, hr_take]
  · have hlen : (as_slice m).length = 4096 := by
      rw [hs]; simp [List.length_append, h1, h3, h4, hss2len]
    unfold message_ab_from_bytes
    rw [if_neg (by omega)]
    have c1 : (as_slice m).take 2048 = m.message := by
      rw [hs, List.take_left' h1]
    have h2080 : (as_slice m).drop 2080 = m.update_channel ++ m.reserved := by
      rw [show (2080 : Nat) = 2048 + 32 from rfl, ← List.drop_drop, hdrop,
        List.drop_left' hss2len]
    have c3 : ((as_slice m).drop 2080).take 128 = m.update_channel := by
      rw [h2080, List.take_left' h3]
    have c4 : ((as_slice m).drop 2208).take 1888 = m.reserved := by
      have hd : (as_slice m).drop 2208 = m.reserved := by
        rw [show (2208 : Nat) = 2080 + 128 from rfl, ← List.drop_drop, h2080,
          List.drop_left' h3]
      rw [hd, ← h4, List.take_length]
    rw [c1, hregion, c3, c4]
    rfl
  · unfold get_bootloader_control
    rw [hr_take, hstored]
    simp [Except.isOk, Except.toBool]

/-- Witness for claim C2 at the scenario state. -/
theorem claim_C2_witness :
    (as_slice scenario1State).length = 4096 ∧
    (((as_slice scenario1State).drop 2048).take 32).drop 28 =
      leBytes (crc32 ((((as_slice scenario1State).drop 2048).take 32).take 28)) ∧
    message_ab_from_bytes (as_slice scenario1State) = .ok (set_checksum scenario1State) ∧
    (get_bootloader_control (set_checksum scenario1State)).isOk = true :=
  claim_C2 scenario1State (by simp [scenario1State]) (by decide)
    (by simp [scenario1State]) (by simp [scenario1State]) (by decide)

/-! ## Boot control service claims -/

theorem is_bootable_of_ok (st : BootloaderMessageAB) (i : Nat) (body : List Nat)
    (h : get_bootloader_control st = .ok body) :
    is_bootable st i =
      if i < ctrl_nb_slot body then
        .ok (decide (0 < slot_tries_remaining body i))
      else
        .error .InvalidInput := by
  unfold is_bootable
  rw [h]

theorem set_active_slot_of_ok (st : BootloaderMessageAB) (i : Nat) (body : List Nat)
    (h : get_bootloader_control_mut st = .ok body) :
    set_active_slot st i =
      (if i < ctrl_nb_slot body then
        match (match i with
               | 0 => some [97]
               | 1 => some [98]
               | _ => none) with
        | none => .error .InvalidData
        | some sfx =>
            match ctrl_set_slot_suffix body sfx with
            | .error _ => .error .InvalidData
            | .ok body2 =>
                .ok (save_to_misc_partition
                  { st with slot_suffix := body2 ++ st.slot_suffix.drop 28 })
      else .error .InvalidInput) := by
  unfold set_active_slot
  rw [h]

theorem take4_of_prefix4 (a b c d : Nat) (rest tail : List Nat) :
    ((([a, b, c, d] ++ rest).take 28) ++ tail).take 4 = [a, b, c, d] := by
  rw [@List.take_append_eq_append_take Nat [a, b, c, d] rest 28]
  simp only [List.length_cons, List.length_nil]
  rw [show List.take 28 [a, b, c, d] = [a, b, c, d] by simp, List.append_assoc]
  exact List.take_left' rfl

/-- Claim C3: on a state whose control record satisfies the spec
validity invariants (stored CRC matches and nb_slot is at most 2),
set_active_slot i succeeds exactly when i is below nb_slot, in which
case it writes the canonical single-character suffix for slot i into
the slot_suffix field; every i at or above nb_slot is rejected with
InvalidInput. -/
theorem claim_C3 (st : BootloaderMessageAB) (i : Nat)
    (hcrc : storedCrc st.slot_suffix = crc32 (st.slot_suffix.take 28))
    (hnb : ctrl_nb_slot (st.slot_suffix.take 28) ≤ 2) :
    ((set_active_slot st i).isOk = true ↔
      i < ctrl_nb_slot (st.slot_suffix.take 28)) ∧
    (ctrl_nb_slot (st.slot_suffix.take 28) ≤ i →
      set_active_slot st i = .error .InvalidInput) ∧
    (i < ctrl_nb_slot (st.slot_suffix.take 28) →
      ∃ st2, set_active_slot st i = .ok st2 ∧
        st2.slot_suffix.take 4 = [if i = 0 then 97 else 98, 0, 0, 0]) := by
  have hget : get_bootloader_control_mut st = .ok (st.slot_suffix.take 28) := by
    simp [get_bootloader_control_mut, hcrc]
  rw [set_active_slot_of_ok st i _ hget]
  by_cases hlt : i < ctrl_nb_slot (st.slot_suffix.take 28)
  · have hi01 : i = 0 ∨ i = 1 := by omega
    have hset : ∀ v : Nat,
        ctrl_set_slot_suffix (st.slot_suffix.take 28) [v] =
          .ok (([v] ++ List.replicate 3 0) ++ (st.slot_suffix.take 28).drop 4) := by
      intro v
      simp [ctrl_set_slot_suffix]
    rcases hi01 with h0 | h1
    · subst h0
      rw [if_pos hlt]
      simp only [hset 97]
      refine ⟨by simp [Except.isOk, Except.toBool, hlt], by omega, fun _ => ?_⟩
      refine ⟨_, rfl, ?_⟩
      simp only [save_to_misc_partition, set_checksum]
      rw [show ([97] ++ List.replicate 3 0 : List Nat) = [97, 0, 0, 0] by rfl]
      rw [List.append_assoc]
      exact take4_of_prefix4 97 0 0 0 _ _
    · subst h1
      rw [if_pos hlt]
      simp only [hset 98]
      refine ⟨by simp [Except.isOk, Except.toBool, hlt], by omega, fun _ => ?_⟩
      refine ⟨_, rfl, ?_⟩
      simp only [save_to_misc_partition, set_checksum]
      rw [show ([98] ++ List.replicate 3 0 : List Nat) = [98, 0, 0, 0] by rfl]
      rw [List.append_assoc]
      exact take4_of_prefix4 98 0 0 0 _ _
  · rw [if_neg hlt]
    exact ⟨by simp [Except.isOk, Except.toBool, hlt], fun _ => rfl,
      fun h => absurd h hlt⟩

/-- Witness for claim C3 at the scenario record with slot index 0. -/
theorem claim_C3_witness :
    ((set_active_slot scenario1State 0).isOk = true ↔
      0 < ctrl_nb_slot (scenario1State.slot_suffix.take 28)) ∧
    (ctrl_nb_slot (scenario1State.slot_suffix.take 28) ≤ 0 →
      set_active_slot scenario1State 0 = .error .InvalidInput) ∧
    (0 < ctrl_nb_slot (scenario1State.slot_suffix.take 28) →
      ∃ st2, set_active_slot scenario1State 0 = .ok st2 ∧
        st2.slot_suffix.take 4 = [if 0 = 0 then 97 else 98, 0, 0, 0]) :=
  claim_C3 scenario1State 0
    (by
      have hss : scenario1State.slot_suffix = scenario1Region := rfl
      rw [hss]
      exact scenario1Region_crc_ok)
    (by
      have hss : scenario1State.slot_suffix = scenario1Region := rfl
      rw [hss, scenario1Region_take]
      decide)

/-- Claim C4 as amended: with a CRC-valid control record, is_bootable
answers Ok of the tries_remaining test for indices below nb_slot, and
fails with InvalidInput - it does not answer false - for indices at or
above nb_slot. -/
theorem claim_C4 (st : BootloaderMessageAB) (i : Nat)
    (hcrc : storedCrc st.slot_suffix = crc32 (st.slot_suffix.take 28)) :
    (i < ctrl_nb_slot (st.slot_suffix.take 28) →
      is_bootable st i =
        .ok (decide (0 < slot_tries_remaining (st.slot_suffix.take 28) i))) ∧
    (ctrl_nb_slot (st.slot_suffix.take 28) ≤ i →
      is_bootable st i = .error .InvalidInput) := by
  have hget : get_bootloader_control st = .ok (st.slot_suffix.take 28) := by
    simp [get_bootloader_control, hcrc]
  rw [is_bootable_of_ok st i _ hget]
  constructor
  · intro hlt
    rw [if_pos hlt]
  · intro hge
    rw [if_neg (by omega)]

/-- Witness for claim C4 at the scenario record: slot 0 (6 tries
remaining) is bootable, slot 2 is out of range. -/
theorem claim_C4_witness :
    is_bootable scenario1State 0 = .ok true ∧
    is_bootable scenario1State 2 = .error .InvalidInput := by
  have hss : scenario1State.slot_suffix = scenario1Region := rfl
  have hcrc : storedCrc scenario1State.slot_suffix =
      crc32 (scenario1State.slot_suffix.take 28) := by
    rw [hss]; exact scenario1Region_crc_ok
  constructor
  · have h := (claim_C4 scenario1State 0 hcrc).1
      (by rw [hss, scenario1Region_take]; decide)
    rw [h, hss, scenario1Region_take,
      show decide (0 < slot_tries_remaining scenario1Body 0) = true from by decide]
  · exact (claim_C4 scenario1State 2 hcrc).2
      (by rw [hss, scenario1Region_take]; decide)

/-- Counterexample for claim C4 as stated: on the scenario record with
nb_slot 2, is_bootable 2 is an InvalidInput error, not the value
false the claim promises. -/
theorem claim_C4_counterexample :
    is_bootable scenario1State 2 = .error .InvalidInput ∧
    is_bootable scenario1State 2 ≠ .ok false := by
  have h := is_bootable_of_ok scenario1State 2 scenario1Body scenario1State_control
  rw [if_neg (show ¬ 2 < ctrl_nb_slot scenario1Body from by decide)] at h
  exact ⟨h, by rw [h]; simp⟩

/-! ## Slot suffix round trip -/

theorem findIdx_zero_pad (s : List Nat) (k i : Nat) (h0 : 0 ∉ s) (hk : 0 < k) :
    (s ++ List.replicate k 0).findIdx? (· == 0) i = some (i + s.length) := by
  induction s generalizing i with
  | nil =>
      cases k with
      | zero => omega
      | succ k =>
          rw [List.nil_append, List.replicate_succ, List.findIdx?_cons]
          simp
  | cons a t ih =>
      have ha : a ≠ 0 := fun h => h0 (by simp [h])
      have ht : 0 ∉ t := fun h => h0 (by simp [h])
      rw [List.cons_append, List.findIdx?_cons, if_neg (by simp [ha]), ih _ ht]
      simp
      omega

/-- Claim C10 as amended: set_slot_suffix accepts every suffix of at
most 3 bytes, storing the suffix followed by NUL padding, and rejects
longer suffixes with DataTooLong, leaving the field unchanged; the
subsequent slot_suffix read returns exactly the stored suffix provided
the suffix contains no NUL byte. -/
theorem claim_C10 (body s : List Nat) :
    (s.length ≤ 3 →
      ctrl_set_slot_suffix body s =
        .ok ((s ++ List.replicate (4 - s.length) 0) ++ body.drop 4) ∧
      (0 ∉ s →
        ctrl_slot_suffix ((s ++ List.replicate (4 - s.length) 0) ++ body.drop 4) =
          .ok s)) ∧
    (3 < s.length →
      ctrl_set_slot_suffix body s = .error .DataTooLong ∧
      apply_set_slot_suffix body s = body) := by
  constructor
  · intro hlen
    constructor
    · unfold ctrl_set_slot_suffix
      rw [if_neg (by omega)]
    · intro h0
      unfold ctrl_slot_suffix
      have hflen : (s ++ List.replicate (4 - s.length) 0).length = 4 := by
        simp [List.length_append]
        omega
      rw [List.take_left' hflen, findIdx_zero_pad s _ 0 h0 (by omega)]
      simp only [Nat.zero_add]
      rw [List.take_append_eq_append_take]
      simp
  · intro hlen
    constructor
    · unfold ctrl_set_slot_suffix
      rw [if_pos hlen]
    · unfold apply_set_slot_suffix ctrl_set_slot_suffix
      rw [if_pos hlen]

/-- Witness for claim C10: the one-byte suffix b round-trips on the
scenario body, and a four-byte suffix is rejected. -/
theorem claim_C10_witness :
    ctrl_set_slot_suffix scenario1Body [98] =
      .ok (([98] ++ List.replicate (4 - ([98] : List Nat).length) 0) ++
        scenario1Body.drop 4) ∧
    ctrl_slot_suffix
      (([98] ++ List.replicate (4 - ([98] : List Nat).length) 0) ++
        scenario1Body.drop 4) = .ok [98] ∧
    ctrl_set_slot_suffix scenario1Body [99, 99, 99, 99] = .error .DataTooLong :=
  ⟨((claim_C10 scenario1Body [98]).1 (by decide)).1,
   ((claim_C10 scenario1Body [98]).1 (by decide)).2 (by decide),
   ((claim_C10 scenario1Body [99, 99, 99, 99]).2 (by decide)).1⟩

/-- Counterexample for claim C10 as stated: the suffix consisting of a
single NUL byte has length at most 3 and is stored, but the subsequent
slot_suffix read stops at the first NUL and returns the empty string
rather than the suffix. -/
theorem claim_C10_counterexample :
    (([0] : List Nat).length ≤ 3) ∧
    ctrl_set_slot_suffix (List.replicate 28 0) [0] = .ok (List.replicate 28 0) ∧
    ctrl_slot_suffix (List.replicate 28 0) = .ok ([] : List Nat) ∧
    ([] : List Nat) ≠ [0] :=
  ⟨by decide, rfl, rfl, by decide⟩

/-! ## Fstab parser

Embedding of src/fstab.rs.  Rust strings are modelled as lists of
characters; the splitters are structural so that concrete lines
evaluate inside the kernel.  splitBy models str::split with a
character predicate: it cuts at every separator, keeping empty pieces,
exactly like the Rust iterator. -/

def splitBy (p : Char → Bool) : List Char → List (List Char)
  | [] => [[]]
  | c :: rest =>
      let r := splitBy p rest
      if p c then [] :: r
      else
        match r with
        | [] => [[c]]
        | h :: t => (c :: h) :: t

/-- str::split_whitespace: split at whitespace and drop empty pieces. -/
def splitWhitespaceL (s : List Char) : List (List Char) :=
  (splitBy (fun c => c.isWhitespace) s).filter (fun t => t ≠ [])

/-- str::split with the single-character separator comma. -/
def splitComma (s : List Char) : List (List Char) :=
  splitBy (fun c => c = ',') s

def startsWithHash (s : List Char) : Bool :=
  match s with
  | c :: _ => c = '#'
  | [] => false

/-! Mount flag constants with the values of the libc crate for Linux.
The source maps the token sync to libc MS_SYNC, which is the msync
flag with value 4, not the mount flag MS_SYNCHRONOUS. -/

def MS_RDONLY : Nat := 1
def MS_NOSUID : Nat := 2
def MS_NODEV : Nat := 4
def MS_NOEXEC : Nat := 8
def MS_SYNC : Nat := 4
def MS_MANDLOCK : Nat := 64
def MS_DIRSYNC : Nat := 128
def MS_NOATIME : Nat := 1024
def MS_NODIRATIME : Nat := 2048
def MS_SILENT : Nat := 32768
def MS_STRICTATIME : Nat := 16777216
def MS_LAZYTIME : Nat := 33554432

/-- FsEntry::get_mount_option.  The token nosiud is spelled exactly as
in the source; the standard spelling nosuid falls through to the
default arm and yields 0. -/
def get_mount_option (option : List Char) : Nat :=
  if option = "ro".toList then MS_RDONLY
  else if option = "rw".toList then 0
  else if option = "dirsync".toList then MS_DIRSYNC
  else if option = "lazytime".toList then MS_LAZYTIME
  else if option = "mandlock".toList then MS_MANDLOCK
  else if option = "noatime".toList then MS_NOATIME
  else if option = "nodev".toList then MS_NODEV
  else if option = "nodiratime".toList then MS_NODIRATIME
  else if option = "noexec".toList then MS_NOEXEC
  else if option = "nosiud".toList then MS_NOSUID
  else if option = "silent".toList then MS_SILENT
  else if option = "strictatime".toList then MS_STRICTATIME
  else if option = "sync".toList then MS_SYNC
  else 0

inductive FsManagerFlags where
  | FirstStageMount
  | SlotSelect
  | Logical
  | Verity
  | Other (s : List Char)
deriving DecidableEq, Repr

/-- FsManagerFlags::from_str, which never fails. -/
def fs_manager_flag_from_str (s : List Char) : FsManagerFlags :=
  if s = "slotselect".toList then .SlotSelect
  else if s = "first_stage_mount".toList then .FirstStageMount
  else if s = "verity".toList then .Verity
  else if s = "logical".toList then .Logical
  else .Other s

def isSlotSelect : FsManagerFlags → Bool
  | .SlotSelect => true
  | _ => false

structure FsEntry where
  fs_spec : List Char
  mountpoint : List Char
  vfs_type : List Char
  mount_options : Nat
  fs_manager_flags : List FsManagerFlags
deriving DecidableEq, Repr

/-- One iteration of the FsEntry::parse_entries loop: comment lines and
lines without exactly 5 whitespace-separated fields are skipped; the
flags of field 4 are parsed, fs_spec gains an underscore and the slot
suffix when SlotSelect is present, and the mount options of field 3 are
OR-ed together. -/
def parse_fstab_line (slot_suffix line : List Char) : Option FsEntry :=
  if startsWithHash line then none
  else
    match splitWhitespaceL line with
    | [p0, p1, p2, p3, p4] =>
        let flags := (splitComma p4).map fs_manager_flag_from_str
        let fs_spec :=
          if flags.any isSlotSelect then p0 ++ '_' :: slot_suffix
          else p0
        let mount_options :=
          (splitComma p3).foldl (fun acc p => acc ||| get_mount_option p) 0
        some ⟨fs_spec, p1, p2, mount_options, flags⟩
    | _ => none

/-- FsEntry::parse_entries over the whole file contents. -/
def parse_entries (contents slot_suffix : List Char) : List FsEntry :=
  (splitBy (fun c => c = '\n') contents).filterMap (parse_fstab_line slot_suffix)

theorem isSlotSelect_from_str (s : List Char) :
    isSlotSelect (fs_manager_flag_from_str s) = decide (s = "slotselect".toList) := by
  unfold fs_manager_flag_from_str
  split_ifs with h1 h2 h3 h4
  · subst h1; decide
  · subst h2; decide
  · subst h3; decide
  · subst h4; decide
  · exact (decide_eq_false h1).symm

theorem flags_any_slotselect (l : List (List Char)) :
    (l.map fs_manager_flag_from_str).any isSlotSelect = true ↔
      "slotselect".toList ∈ l := by
  induction l with
  | nil => simp
  | cons a t ih =>
      simp only [List.map_cons, List.any_cons, Bool.or_eq_true, ih,
        isSlotSelect_from_str, decide_eq_true_eq, List.mem_cons]
      constructor
      · rintro (h | h)
        · exact Or.inl h.symm
        · exact Or.inr h
      · rintro (h | h)
        · exact Or.inl h.symm
        · exact Or.inr h

/-- Claim C6: a non-comment line with exactly five whitespace-separated
fields parses to an entry; when field 5 contains the token slotselect,
fs_spec is the first field, an underscore and the slot suffix; without
the token fs_spec is the first field unchanged. -/
theorem claim_C6 (line suffix p0 p1 p2 p3 p4 : List Char)
    (hc : startsWithHash line = false)
    (hsplit : splitWhitespaceL line = [p0, p1, p2, p3, p4]) :
    (parse_fstab_line suffix line).isSome = true ∧
    ("slotselect".toList ∈ splitComma p4 →
      (parse_fstab_line suffix line).map FsEntry.fs_spec =
        some (p0 ++ '_' :: suffix)) ∧
    ("slotselect".toList ∉ splitComma p4 →
      (parse_fstab_line suffix line).map FsEntry.fs_spec = some p0) := by
  unfold parse_fstab_line
  rw [hc, hsplit]
  have e : "slotselect".toList = ['s', 'l', 'o', 't', 's', 'e', 'l', 'e', 'c', 't'] := by
    decide
  by_cases hmem : "slotselect".toList ∈ splitComma p4
  · have hany : ((splitComma p4).map fs_manager_flag_from_str).any isSlotSelect = true :=
      (flags_any_slotselect _).mpr hmem
    simp [hany, hmem]
    exact e ▸ hmem
  · have hany : ((splitComma p4).map fs_manager_flag_from_str).any isSlotSelect = false :=
      Bool.not_eq_true _ |>.mp fun h => hmem ((flags_any_slotselect _).mp h)
    simp [hany, hmem]
    exact e ▸ hmem

/-- Witness for claim C6: the spec's example line with suffix a, and the
data line without slotselect. -/
theorem claim_C6_witness :
    (parse_fstab_line "a".toList
      "/dev/block/by-name/system / ext2 ro,noauto,nouser slotselect,first_stage_mount,verity".toList).map
        FsEntry.fs_spec = some "/dev/block/by-name/system_a".toList ∧
    (parse_fstab_line "a".toList
      "/dev/block/by-name/data /data ext2 rw,noauto,nouser first_stage_mount".toList).map
        FsEntry.fs_spec = some "/dev/block/by-name/data".toList := by
  constructor
  · have h := (claim_C6
      "/dev/block/by-name/system / ext2 ro,noauto,nouser slotselect,first_stage_mount,verity".toList
      "a".toList
      "/dev/block/by-name/system".toList "/".toList "ext2".toList
      "ro,noauto,nouser".toList "slotselect,first_stage_mount,verity".toList
      (by decide) (by decide)).2.1 (by decide)
    rw [h]
    decide
  · have h := (claim_C6
      "/dev/block/by-name/data /data ext2 rw,noauto,nouser first_stage_mount".toList
      "a".toList
      "/dev/block/by-name/data".toList "/data".toList "ext2".toList
      "rw,noauto,nouser".toList "first_stage_mount".toList
      (by decide) (by decide)).2.2 (by decide)
    rw [h]

/-- Claim C5, the code divergence: the source maps the misspelled token
nosiud to MS_NOSUID, so the standard mount option nosuid falls to the
default arm and contributes 0; a line carrying nosuid in field 4 parses
to mount_options 0 instead of MS_NOSUID. -/
theorem claim_C5 :
    get_mount_option "nosuid".toList = 0 ∧
    get_mount_option "nosiud".toList = MS_NOSUID ∧
    (parse_fstab_line "a".toList
      "/dev/block/by-name/data /data ext2 nosuid first_stage_mount".toList).map
        FsEntry.mount_options = some 0 ∧
    MS_NOSUID ≠ 0 := by
  refine ⟨by decide, by decide, by decide, by decide⟩

/-! ## Uevent PARTNAME sanitizer

Embedding of sanitize_name in src/uevent/mod.rs: every input byte that
appears in the allowed byte string is kept, every other byte becomes an
underscore. -/

def sanitize_allowed : List Nat :=
  "abcdefghijklmnopqrstuvwxyzABCDEFGHIJKLMNOPQRSTUVWXYZ0123456789_-.".toList.map
    Char.toNat

def sanitize_name (input : List Nat) : List Nat :=
  input.foldl
    (fun sanitized i =>
      sanitized ++ [if sanitize_allowed.contains i then i else 95])
    []

/-- The character class of the claim: letters, digits, underscore,
hyphen and dot. -/
def isAllowedByte (b : Nat) : Prop :=
  (97 ≤ b ∧ b ≤ 122) ∨ (65 ≤ b ∧ b ≤ 90) ∨ (48 ≤ b ∧ b ≤ 57) ∨
    b = 95 ∨ b = 45 ∨ b = 46

instance (b : Nat) : Decidable (isAllowedByte b) := by
  unfold isAllowedByte
  infer_instance

theorem sanitize_allowed_eval :
    sanitize_allowed =
      [97, 98, 99, 100, 101, 102, 103, 104, 105, 106, 107, 108, 109, 110,
       111, 112, 113, 114, 115, 116, 117, 118, 119, 120, 121, 122,
       65, 66, 67, 68, 69, 70, 71, 72, 73, 74, 75, 76, 77, 78, 79, 80,
       81, 82, 83, 84, 85, 86, 87, 88, 89, 90,
       48, 49, 50, 51, 52, 53, 54, 55, 56, 57, 95, 45, 46] := by
  decide

theorem sanitize_allowed_contains (b : Nat) :
    sanitize_allowed.contains b = true ↔ isAllowedByte b := by
  rw [sanitize_allowed_eval]
  rw [show ∀ l : List Nat, l.contains b = List.elem b l from fun _ => rfl,
    List.elem_iff]
  simp only [List.mem_cons, List.not_mem_nil, or_false]
  unfold isAllowedByte
  constructor <;> intro h <;> omega

theorem foldl_append_map (f : Nat → Nat) :
    ∀ (l acc : List Nat),
      l.foldl (fun a b => a ++ [f b]) acc = acc ++ l.map f
  | [], acc => by simp
  | b :: rest, acc => by
      simp only [List.foldl_cons, List.map_cons]
      rw [foldl_append_map f rest (acc ++ [f b])]
      simp

theorem sanitize_name_eq_map (input : List Nat) :
    sanitize_name input =
      input.map (fun b => if sanitize_allowed.contains b then b else 95) := by
  unfold sanitize_name
  rw [foldl_append_map _ input []]
  simp

/-- Claim C8: the sanitizer keeps the input length, keeps every byte of
the class letters, digits, underscore, hyphen, dot, and replaces every
other byte by the underscore byte 95. -/
theorem claim_C8 (input : List Nat) :
    (sanitize_name input).length = input.length ∧
    ∀ i, i < input.length →
      (sanitize_name input).getD i 0 =
        if isAllowedByte (input.getD i 0) then input.getD i 0 else 95 := by
  rw [sanitize_name_eq_map]
  refine ⟨by simp, fun i hi => ?_⟩
  have hgd : input.getD i 0 = input[i] := by
    rw [List.getD_eq_getElem?_getD, List.getElem?_eq_getElem hi]
    rfl
  rw [List.getD_eq_getElem?_getD, List.getElem?_map,
    List.getElem?_eq_getElem hi, Option.map_some', Option.getD_some, hgd]
  by_cases hb : isAllowedByte input[i]
  · rw [if_pos ((sanitize_allowed_contains _).mpr hb), if_pos hb]
  · rw [if_neg (fun h => hb ((sanitize_allowed_contains _).mp h)), if_neg hb]

/-- Witness for claim C8 on the bytes of A, slash, dot: the slash is
replaced, the letter and the dot are kept. -/
theorem claim_C8_witness :
    (sanitize_name [65, 47, 46]).length = ([65, 47, 46] : List Nat).length ∧
    (sanitize_name [65, 47, 46]).getD 1 0 =
      if isAllowedByte (([65, 47, 46] : List Nat).getD 1 0) then
        ([65, 47, 46] : List Nat).getD 1 0
      else 95 :=
  ⟨(claim_C8 [65, 47, 46]).1, (claim_C8 [65, 47, 46]).2 1 (by decide)⟩

/-! ## Uevents and the device node materializer

Embedding of the UEvent record of src/uevent/mod.rs and of handle_add
in src/uevent/handle_events.rs.  Paths are lists of components; the
filesystem is an existence oracle consulted where the Rust code calls
exists(), taken as a snapshot at the start of the call.  The effects a
call would perform are returned as a list; todo!() and unwrap-on-None
panics are a distinguished outcome. -/

inductive Action where
  | Unknown
  | Add
  | Change
  | Remove
deriving DecidableEq, Repr

structure UEvent where
  action : Action
  dev_path : List Char
  maybe_subsystem : Option (List Char)
  maybe_firmware : Option (List Char)
  maybe_major : Option Nat
  maybe_minor : Option Nat
  maybe_devname : Option (List Char)
  maybe_partitionnum : Option Int
  maybe_partitionname : Option (List Char)
  maybe_modalias : Option (List Char)
deriving DecidableEq, Repr

/-- UEvent::get_dev_type: block subsystem means a block node, anything
else a character node. -/
def uevent_is_block (e : UEvent) : Bool :=
  match e.maybe_subsystem with
  | some s => s = "block".toList
  | none => false

inductive FsEffect where
  | createDir (path : List (List Char)) (mode : Nat)
  | chown (path : List (List Char)) (uid gid : Nat)
  | mknod (path : List (List Char)) (isBlock : Bool) (mode major minor : Nat)
  | symlink (target link : List (List Char))
deriving DecidableEq, Repr

inductive HandleResult where
  | ok (effects : List FsEffect)
  | err (kind : IoErrorKind)
  | panic
deriving DecidableEq, Repr

/-- The default DefaultAttributes policy of pal: everything root-owned
with mode 0o600. -/
structure FileAttributes where
  owner : Nat
  group : Nat
  mode : Nat
deriving DecidableEq, Repr

def default_get_file_attributes (_path : List (List Char)) : FileAttributes :=
  ⟨0, 0, 384⟩

/-- Path::file_name: the last nonempty component. -/
def path_file_name (p : List Char) : Option (List Char) :=
  ((splitBy (fun c => c = '/') p).filter (fun t => t ≠ [])).getLast?

/-- The ancestors of a path, deepest first, ending at the root. -/
def ancestors (p : List (List Char)) : List (List (List Char)) :=
  (List.range (p.length + 1)).map (fun k => p.take (p.length - k))

/-- create_dir_if_needed: walk the ancestors of the parent of dev_path,
creating, chmodding and chowning every directory the oracle reports as
missing. -/
def create_dir_if_needed (fs : List (List Char) → Bool)
    (dev_path : List (List Char)) (uid gid mode : Nat) : List FsEffect :=
  ((ancestors dev_path.dropLast).map
    (fun q => if fs q then [] else
      [FsEffect.createDir q mode, FsEffect.chown q uid gid])).flatten

/-- create_device: ensure the parent directories exist, then mknod the
node unless it already exists. -/
def create_device (fs : List (List Char) → Bool) (dev_path : List (List Char))
    (mode uid gid : Nat) (isBlock : Bool) (major minor : Nat) : List FsEffect :=
  create_dir_if_needed fs dev_path uid gid mode ++
    (if fs dev_path then [] else [FsEffect.mknod dev_path isBlock mode major minor])

/-- create_links: for each missing link, ensure its parent directories
and symlink it to the device node. -/
def create_links (fs : List (List Char) → Bool) (dev_path : List (List Char))
    (links : List (List (List Char))) (uid gid mode : Nat) : List FsEffect :=
  (links.map (fun link =>
    if fs link then []
    else create_dir_if_needed fs link uid gid mode ++
      [FsEffect.symlink dev_path link])).flatten

/-- handle_add of the device node materializer.  The assert on the Add
action and the unwrap of a missing subsystem panic; events without a
major or minor are InvalidInput; the block subsystem creates the node
under /dev/block plus an optional by-name symlink; the usb and net arms
are todo!() and panic; unknown subsystems are logged and dropped. -/
def handle_add (fs : List (List Char) → Bool) (event : UEvent) : HandleResult :=
  if event.action ≠ .Add then .panic
  else if event.maybe_major = none ∨ event.maybe_minor = none then
    .err .InvalidInput
  else
    match event.maybe_subsystem with
    | none => .panic
    | some s =>
        if s = "block".toList then
          match path_file_name event.dev_path with
          | none => .panic
          | some name =>
              let device_path := ["dev".toList, "block".toList, name]
              let attrs := default_get_file_attributes device_path
              let dev_effects := create_device fs device_path attrs.mode
                attrs.owner attrs.group (uevent_is_block event)
                (event.maybe_major.getD 0) (event.maybe_minor.getD 0)
              let link_effects :=
                match event.maybe_partitionname with
                | some n => create_links fs device_path
                    [["dev".toList, "block".toList, "by-name".toList, n]]
                    attrs.owner attrs.group attrs.mode
                | none => []
              .ok (dev_effects ++ link_effects)
        else if s = "usb".toList then .panic
        else if s = "net".toList then .panic
        else .ok []

/-- Claim C7 as amended: an Add event with major and minor whose
subsystem is usb or net does not create any node, link or directory -
but not because the code returns cleanly: both arms are todo!() and
panic. -/
theorem claim_C7 (fs : List (List Char) → Bool) (event : UEvent)
    (hact : event.action = .Add)
    (hmaj : event.maybe_major.isSome = true)
    (hmin : event.maybe_minor.isSome = true)
    (hsub : event.maybe_subsystem = some "usb".toList ∨
      event.maybe_subsystem = some "net".toList) :
    handle_add fs event = .panic := by
  unfold handle_add
  rw [if_neg (by simp [hact])]
  rw [if_neg (by
    rintro (h | h)
    · rw [h] at hmaj; simp at hmaj
    · rw [h] at hmin; simp at hmin)]
  rcases hsub with h | h <;> rw [h] <;> rfl

def usbAddEvent : UEvent :=
  ⟨.Add, "/devices/usb1/1-1".toList, some "usb".toList, none, some 189,
    some 1, none, none, none, none⟩

def netAddEvent : UEvent :=
  ⟨.Add, "/devices/virtual/net/lo".toList, some "net".toList, none, some 10,
    some 200, none, none, none, none⟩

/-- Witness for claim C7 at a concrete usb Add event. -/
theorem claim_C7_witness : handle_add (fun _ => false) usbAddEvent = .panic :=
  claim_C7 (fun _ => false) usbAddEvent rfl rfl rfl (Or.inl rfl)

/-- Counterexample for claim C7 as stated: on concrete usb and net Add
events carrying major and minor, handle_add panics in the todo!() arm;
it does not return Ok with no effects. -/
theorem claim_C7_counterexample :
    handle_add (fun _ => false) usbAddEvent = .panic ∧
    handle_add (fun _ => false) netAddEvent = .panic ∧
    HandleResult.panic ≠ HandleResult.ok [] := by
  refine ⟨by decide, by decide, by decide⟩

/-! ## Sysfs uevent replayer

Embedding of regenerate_uevent_for_dir in src/uevent/mod.rs.  The
filesystem is a finite list of entries, each a component path tagged
true for a directory and false for a file; its order stands for the
order in which the directory walk yields entries.  Writing add into a
uevent file makes the kernel emit events, modelled by the emit oracle;
the drain loop feeds them to the callback until it answers Stop.  The
result carries the action together with the uevent files written and
the events handed to the callback, the observable effects of a call. -/

inductive UEventGenerateAction where
  | Stop
  | Continue
deriving DecidableEq, Repr

def isDirIn (fs : List (List (List Char) × Bool)) (p : List (List Char)) : Bool :=
  fs.any (fun e => e.1 = p && e.2)

def isFileIn (fs : List (List (List Char) × Bool)) (p : List (List Char)) : Bool :=
  fs.any (fun e => e.1 = p && !e.2)

/-- Strictly below p in the tree: p is a proper prefix of q. -/
def strictlyUnder (p q : List (List Char)) : Bool :=
  List.isPrefixOf p q && decide (p.length < q.length)

/-- The directory entries the source recursion visits: entries of the
walk below dir that are not files, own both a uevent and a dev file,
and differ from dir itself. -/
def candidate_dirs (fs : List (List (List Char) × Bool))
    (p : List (List Char)) : List (List (List Char)) :=
  ((fs.filter (fun e => strictlyUnder p e.1)).map (fun e => e.1)).filter
    (fun q => isDirIn fs q && isFileIn fs (q ++ ["uevent".toList]) &&
      isFileIn fs (q ++ ["dev".toList]))

theorem candidate_dirs_length (fs : List (List (List Char) × Bool))
    (p q : List (List Char)) (h : q ∈ candidate_dirs fs p) :
    p.length < q.length := by
  unfold candidate_dirs at h
  rw [List.mem_filter] at h
  obtain ⟨h1, _⟩ := h
  rw [List.mem_map] at h1
  obtain ⟨e, he, rfl⟩ := h1
  rw [List.mem_filter] at he
  have h2 := he.2
  unfold strictlyUnder at h2
  rw [Bool.and_eq_true] at h2
  exact of_decide_eq_true h2.2

structure RegenResult where
  action : UEventGenerateAction
  writes : List (List (List Char))
  calls : List UEvent
deriving DecidableEq, Repr

/-- The drain loop: feed events to the callback in order until it
answers Stop, recording the events it saw. -/
def drainEvents (cb : UEvent → UEventGenerateAction) :
    List UEvent → UEventGenerateAction × List UEvent
  | [] => (.Continue, [])
  | e :: rest =>
      match cb e with
      | .Stop => (.Stop, [e])
      | .Continue =>
          let r := drainEvents cb rest
          (r.1, e :: r.2)

/-- Sequencing of the recursion results: once a Stop has been seen the
remaining candidates are not visited. -/
def accumulate (acc r : RegenResult) : RegenResult :=
  match acc.action with
  | .Stop => acc
  | .Continue => ⟨r.action, acc.writes ++ r.writes, acc.calls ++ r.calls⟩

/-- The own-directory part of the recursion: when dir/uevent exists as
a file, write add into it and drain the emitted events through the
callback; otherwise nothing happens. -/
def regen_own (fs : List (List (List Char) × Bool)) (p : List (List Char))
    (emit : List (List Char) → List UEvent) (cb : UEvent → UEventGenerateAction) :
    UEventGenerateAction × List (List (List Char)) × List UEvent :=
  if isFileIn fs (p ++ ["uevent".toList]) then
    ((drainEvents cb (emit p)).1, [p ++ ["uevent".toList]],
      (drainEvents cb (emit p)).2)
  else (.Continue, [], [])

/-- regenerate_uevent_for_dir: return Continue at once when dir is not a
directory or its path has more than 5 components; otherwise write add
into dir/uevent when that file exists and drain the resulting events
into the callback, propagating Stop; then recurse over the qualifying
directories strictly below dir, again propagating Stop. -/
def regenerate_uevent_for_dir (fs : List (List (List Char) × Bool))
    (p : List (List Char)) (emit : List (List Char) → List UEvent)
    (cb : UEvent → UEventGenerateAction) : RegenResult :=
  if h : isDirIn fs p = false ∨ 5 < p.length then ⟨.Continue, [], []⟩
  else
    match regen_own fs p emit cb with
    | (.Stop, ws, cs) => ⟨.Stop, ws, cs⟩
    | (.Continue, ws, cs) =>
        (candidate_dirs fs p).attach.foldl
          (fun acc q =>
            accumulate acc (regenerate_uevent_for_dir fs q.1 emit cb))
          ⟨.Continue, ws, cs⟩
termination_by 6 - p.length
decreasing_by
  have hq := candidate_dirs_length fs p q.1 q.2
  have h5 : ¬ 5 < p.length := fun hh => h (Or.inr hh)
  omega

theorem regen_own_cases (fs : List (List (List Char) × Bool))
    (p : List (List Char)) (emit : List (List Char) → List UEvent)
    (cb : UEvent → UEventGenerateAction) :
    regen_own fs p emit cb =
      ((drainEvents cb (emit p)).1, [p ++ ["uevent".toList]],
        (drainEvents cb (emit p)).2) ∨
    regen_own fs p emit cb = (.Continue, [], []) := by
  unfold regen_own
  split_ifs
  · exact Or.inl rfl
  · exact Or.inr rfl

theorem foldl_accumulate_writes {α : Type} (l : List α) (g : α → RegenResult) :
    ∀ (init : RegenResult),
      (∀ w ∈ init.writes, w.length ≤ 6) →
      (∀ x ∈ l, ∀ w ∈ (g x).writes, w.length ≤ 6) →
      ∀ w ∈ (l.foldl (fun acc x => accumulate acc (g x)) init).writes,
        w.length ≤ 6 := by
  induction l with
  | nil => exact fun init hinit _ => hinit
  | cons a t ih =>
      intro init hinit hall
      simp only [List.foldl_cons]
      apply ih
      · intro w hw
        unfold accumulate at hw
        split at hw
        · exact hinit w hw
        · rcases List.mem_append.mp hw with h | h
          · exact hinit w h
          · exact hall a (by simp) w h
      · intro x hx
        exact hall x (List.mem_cons_of_mem a hx)

theorem regen_writes_bound :
    ∀ (n : Nat) (fs : List (List (List Char) × Bool)) (p : List (List Char))
      (emit : List (List Char) → List UEvent) (cb : UEvent → UEventGenerateAction),
      6 - p.length ≤ n →
      ∀ w ∈ (regenerate_uevent_for_dir fs p emit cb).writes, w.length ≤ 6 := by
  intro n
  induction n with
  | zero =>
      intro fs p emit cb hn w hw
      have h6 : 5 < p.length := by omega
      unfold regenerate_uevent_for_dir at hw
      rw [dif_pos (Or.inr h6)] at hw
      simp at hw
  | succ n ih =>
      intro fs p emit cb hn w hw
      unfold regenerate_uevent_for_dir at hw
      by_cases hg : (isDirIn fs p = false ∨ 5 < p.length)
      · rw [dif_pos hg] at hw
        simp at hw
      · rw [dif_neg hg] at hw
        have hp5 : p.length ≤ 5 := by
          rcases Nat.lt_or_ge 5 p.length with h | h
          · exact absurd (Or.inr h) hg
          · omega
        have hown : ∀ a ws cs, regen_own fs p emit cb = (a, ws, cs) →
            ∀ x ∈ ws, x.length ≤ 6 := by
          intro a ws cs heq x hx
          rcases regen_own_cases fs p emit cb with he | he <;> rw [he] at heq
          · have hws : ws = [p ++ ["uevent".toList]] := by
              have := congrArg (fun z => z.2.1) heq
              simpa using this.symm
            rw [hws] at hx
            simp only [List.mem_singleton] at hx
            rw [hx]
            simp only [List.length_append, List.length_cons, List.length_nil]
            omega
          · have hws : ws = [] := by
              have := congrArg (fun z => z.2.1) heq
              simpa using this.symm
            rw [hws] at hx
            simp at hx
        split at hw
        · rename_i ws cs heq
          exact hown _ ws cs heq w hw
        · rename_i ws cs heq
          refine foldl_accumulate_writes _ _ _ (hown _ ws cs heq) ?_ w hw
          intro q _ x hx
          have hq := candidate_dirs_length fs p q.1 q.2
          exact ih fs q.1 emit cb (by omega) x hx

/-- Claim C9: when the path is not a directory or has more than 5
components, the replayer returns Continue immediately, writing to no
uevent file and invoking the callback on nothing; and every uevent
file any call ever writes sits at most 5 components deep, which is the
bound that cuts the recursion. -/
theorem claim_C9 (fs : List (List (List Char) × Bool)) (p : List (List Char))
    (emit : List (List Char) → List UEvent) (cb : UEvent → UEventGenerateAction) :
    ((isDirIn fs p = false ∨ 5 < p.length) →
      regenerate_uevent_for_dir fs p emit cb = ⟨.Continue, [], []⟩) ∧
    (regenerate_uevent_for_dir fs p emit cb).writes.all
      (fun w => decide (w.length ≤ 6)) = true := by
  constructor
  · intro hg
    unfold regenerate_uevent_for_dir
    rw [dif_pos hg]
  · rw [List.all_eq_true]
    intro w hw
    exact decide_eq_true
      (regen_writes_bound (6 - p.length) fs p emit cb le_rfl w hw)

/-- Witness for claim C9: a 6-component path returns Continue with no
writes and no callback invocations. -/
theorem claim_C9_witness :
    regenerate_uevent_for_dir [] (List.replicate 6 "x".toList)
      (fun _ => []) (fun _ => .Continue) = ⟨.Continue, [], []⟩ ∧
    (regenerate_uevent_for_dir [] (List.replicate 6 "x".toList)
      (fun _ => []) (fun _ => .Continue)).writes.all
        (fun w => decide (w.length ≤ 6)) = true :=
  ⟨(claim_C9 [] (List.replicate 6 "x".toList) (fun _ => []) (fun _ => .Continue)).1
      (Or.inr (by simp)),
   (claim_C9 [] (List.replicate 6 "x".toList) (fun _ => []) (fun _ => .Continue)).2⟩

end Corelib
